import Mathlib

/-!
Verification of the CT-Scan-Discoverer discovery orchestrator.

This file gives a shallow embedding of the program's core logic and proves
the specification's claims about it:

* the data model (`types.ts`): `PincodeStatus`, `Pincode`,
  `CityDiscoveryStatus`, `ScanCenter`, `CityData`;
* the dedup engine (`services/geminiService.ts`): `createAddressFingerprint`
  and the stateful `Array.prototype.filter` over a fingerprint set
  (`filterNew`), plus the JSON-parse handling of the extraction response
  (`extractionResultOf`);
* the per-group orchestrator (the `CityTile` component): the scheduler
  `useEffect` (`schedulerStep`), the bounded-retry item processor
  `processPincode`, and the UI transition handlers `handleDiscover`,
  `handleManualRetry`, `handleStop`;
* the collection merge (`App.tsx` / `mergeAdditionalCities`).

Effectful TypeScript is modelled by explicit state passing: every React
`applyUpdate(prev => next)` call becomes a pure function `CityData → CityData`,
the retry loop's per-attempt outcomes (results of the remote extraction call)
become an oracle `Nat → AttemptResult`, and the cancellation flag — which the
claims treat as false (an uncancelled run) — is noted where it is modelled away.
-/

/-- `types.ts`: `PincodeStatus = 'pending' | 'scanning' | 'scanned' | 'error' | 'retrying'`. -/
inductive PincodeStatus where
  | pending
  | scanning
  | scanned
  | error
  | retrying
deriving DecidableEq, Repr

/-- `types.ts`: `Pincode { code, status }`. -/
structure Pincode where
  code : String
  status : PincodeStatus
deriving DecidableEq, Repr

/-- `types.ts`: `CityDiscoveryStatus = 'idle' | 'running' | 'stopped' | 'completed' | 'error'`. -/
inductive CityDiscoveryStatus where
  | idle
  | running
  | stopped
  | completed
  | error
deriving DecidableEq, Repr

/-- `types.ts`: `ScanCenter`. -/
structure ScanCenter where
  centerName : String
  address : String
  contactDetails : String
  doctorDetails : List String
  googleMapsLink : String
  reasoning : String
deriving DecidableEq, Repr

/-- `types.ts`: `CityData`. `population` is the numeric weight parsed from the
CSV (a non-negative integer in every ingestion path), `error` the optional
group-level error message. -/
structure CityData where
  name : String
  stateName : String
  pincodes : List Pincode
  status : CityDiscoveryStatus
  results : List ScanCenter
  currentPincodeIndex : Nat
  centersFound : Nat
  population : Nat
  error : Option String
deriving DecidableEq, Repr

/-- `CityTile`: `const MAX_RETRIES = 3`. -/
def MAX_RETRIES : Nat := 3

/-- `CityTile`: `const RETRY_DELAY_MS = 5000`. -/
def RETRY_DELAY_MS : Nat := 5000

/-- `CityTile`: `const MAX_CONCURRENT_PINCODES = 2`. -/
def MAX_CONCURRENT_PINCODES : Nat := 2

/-! ### Dedup engine (`services/geminiService.ts`) -/

/-- `geminiService.ts` lines 136-138:
`address.toLowerCase().replace(/[^a-z0-9]/g, '')`.
Lowercasing is per character (`Char.toLower`; the JS Unicode case mapping
differs only on code points outside basic Latin, which the regex strips in
either model), and the regex keeps exactly the lowercase ASCII letters and the
ASCII digits. -/
def createAddressFingerprint (address : String) : String :=
  String.mk ((address.data.map Char.toLower).filter (fun ch => ch.isLower || ch.isDigit))

/-- Fingerprint of one extracted record's address, as used for dedup. -/
def fingerprintOf (c : ScanCenter) : String :=
  createAddressFingerprint c.address

/-- The body of the `parsedResponse.filter(...)` callback in
`findAndAnalyzeCTScans` (lines 215-225), with the mutable
`existingAddressFingerprints` set threaded explicitly: a candidate is kept iff
its fingerprint is not in the set, and a kept candidate's fingerprint is added
to the set before the remaining candidates are examined. -/
def filterNewAux (seen : List String) : List ScanCenter → List ScanCenter
  | [] => []
  | c :: rest =>
    let f := fingerprintOf c
    if seen.contains f then filterNewAux seen rest
    else c :: filterNewAux (f :: seen) rest

/-- `findAndAnalyzeCTScans` lines 213-225: build the fingerprint set from
`existingResults`, then run the stateful filter over the parsed candidates. -/
def filterNew (candidates existing : List ScanCenter) : List ScanCenter :=
  filterNewAux (existing.map fingerprintOf) candidates

/-- JS `String.prototype.trim`: drop leading and trailing whitespace
(modelled structurally over the character list with `Char.isWhitespace`). -/
def strTrim (s : String) : String :=
  String.mk
    (((s.data.dropWhile Char.isWhitespace).reverse.dropWhile Char.isWhitespace).reverse)

/-- `findAndAnalyzeCTScans` lines 203-232: what the function resolves with once
the extraction call itself has resolved with raw text `jsonTextRaw`.
`JSON.parse` is external; its outcome is the `parsed` argument, `none` meaning
it threw (a malformed payload). No path in these lines throws: an empty
trimmed payload resolves with `[]`, a parse failure is caught, logged, and
resolves with `[]`, and a parsed payload resolves with the dedup-filtered
records. -/
def extractionResultOf (jsonTextRaw : String) (parsed : Option (List ScanCenter))
    (existingResults : List ScanCenter) : Except String (List ScanCenter) :=
  let jsonText := strTrim jsonTextRaw
  if jsonText = "" then .ok []
  else
    match parsed with
    | some cs => .ok (filterNew cs existingResults)
    | none => .ok []

/-! ### Per-item state updates (`CityTile`) -/

/-- The `applyUpdate` that maps the pincode with the given code to a new
status, leaving all other pincodes unchanged (the shape used by the
attempt-marking, success and failure updates in `processPincode`). -/
def setItemStatus (c : CityData) (code : String) (s : PincodeStatus) : CityData :=
  { c with
    pincodes := c.pincodes.map (fun p => if p.code == code then { p with status := s } else p) }

/-- `processPincode` line 393: `attempt > 1 ? 'retrying' : 'scanning'`. -/
def attemptStatus (attempt : Nat) : PincodeStatus :=
  if attempt > 1 then .retrying else .scanning

/-- `processPincode` lines 403-411 (the success update): append the returned
centers, add their count to `centersFound`, mark the item `scanned`, clear the
group error. -/
def applySuccess (c : CityData) (code : String) (centers : List ScanCenter) : CityData :=
  { c with
    results := c.results ++ centers
    centersFound := c.centersFound + centers.length
    pincodes := c.pincodes.map (fun p => if p.code == code then { p with status := .scanned } else p)
    error := none }

/-- `processPincode` lines 422-430 (the attempts-exhausted update): mark the
item `error` and set the group error message. -/
def applyFailure (c : CityData) (code : String) : CityData :=
  { c with
    pincodes := c.pincodes.map (fun p => if p.code == code then { p with status := .error } else p)
    error := some ("Failed on pincode " ++ code ++ ".") }

/-- Outcome of one `findAndAnalyzeCTScans` call for one attempt: it resolves
with a list of centers or rejects. -/
inductive AttemptResult where
  | success (centers : List ScanCenter)
  | failure
deriving Repr

/-- Observable events of one `processPincode` run: the status written at the
start of attempt `n`, and each `setTimeout` backoff wait, in order. -/
inductive Ev where
  | attempt (n : Nat) (s : PincodeStatus)
  | delay (ms : Nat)
deriving DecidableEq, Repr

/-- The `for (let attempt = 1; attempt <= MAX_RETRIES; attempt++)` loop of
`processPincode` (lines 386-420), uncancelled (`isCancelled.current` is false
throughout; the claims concern an uncancelled run). The remaining attempt
numbers are passed as a list; `oracle n` is the outcome of the extraction call
on attempt `n`. Each iteration first writes `scanning`/`retrying`, then calls;
on success it applies the success update and exits with `success = true`; on
failure it waits `RETRY_DELAY_MS` before the next attempt when one remains.
Returns the state, the `success` flag, and the event trace. -/
def processAttempts (code : String) (oracle : Nat → AttemptResult) :
    List Nat → CityData → CityData × Bool × List Ev
  | [], c => (c, false, [])
  | attempt :: rest, c =>
    let c1 := setItemStatus c code (attemptStatus attempt)
    let ev := Ev.attempt attempt (attemptStatus attempt)
    match oracle attempt with
    | .success centers => (applySuccess c1 code centers, true, [ev])
    | .failure =>
      match rest with
      | [] => (c1, false, [ev])
      | _ :: _ =>
        let r := processAttempts code oracle rest c1
        (r.1, r.2.1, ev :: Ev.delay RETRY_DELAY_MS :: r.2.2)

/-- The attempt numbers `1, ..., MAX_RETRIES` of the retry loop. -/
def attemptSchedule : List Nat := [1, 2, 3]

/-- `processPincode` (lines 383-431), uncancelled: run the retry loop; if no
attempt succeeded, apply the attempts-exhausted update. Returns the final
group state and the event trace. -/
def processPincode (c : CityData) (code : String) (oracle : Nat → AttemptResult) :
    CityData × List Ev :=
  let r := processAttempts code oracle attemptSchedule c
  (if r.2.1 then r.1 else applyFailure r.1 code, r.2.2)

/-! ### Scheduler (`CityTile`'s `useEffect`, lines 357-434) -/

/-- Number of items currently `scanning` or `retrying` (lines 362-364). -/
def activeScans (c : CityData) : Nat :=
  (c.pincodes.filter (fun p => p.status == .scanning || p.status == .retrying)).length

/-- First item in list order whose status is `pending` or `error`
(lines 366-368). -/
def nextPincode (c : CityData) : Option Pincode :=
  c.pincodes.find? (fun p => p.status == .pending || p.status == .error)

/-- What one invocation of the scheduler effect decides to do. -/
inductive SchedAction where
  | wait
  | complete
  | start (code : String)
deriving DecidableEq, Repr

/-- The decision logic of the scheduler `useEffect` (lines 357-434): bail out
unless the group is `running` and not cancelled; if no `pending`/`error` item
exists, mark the group `completed` when nothing is active and everything is
`scanned`, else wait; if the concurrency cap is reached, wait; otherwise start
processing the first eligible item. -/
def schedulerStep (cancelled : Bool) (c : CityData) : SchedAction :=
  if c.status ≠ .running || cancelled then .wait
  else
    match nextPincode c with
    | none =>
      if activeScans c == 0 && c.pincodes.all (fun p => p.status == .scanned)
      then .complete else .wait
    | some next =>
      if MAX_CONCURRENT_PINCODES ≤ activeScans c then .wait
      else .start next.code

/-- The synchronous state mutation each scheduler decision performs:
`complete` sets the group status to `completed` (lines 371-375); `start code`
performs the first mutation of `processPincode` for that item — attempt 1
marks it `scanning` (lines 389-396). -/
def applySched (c : CityData) : SchedAction → CityData
  | .wait => c
  | .complete => { c with status := .completed }
  | .start code => setItemStatus c code (attemptStatus 1)

/-- One synchronous scheduler invocation as a state transition. -/
def schedStep (cancelled : Bool) (c : CityData) : CityData :=
  applySched c (schedulerStep cancelled c)

/-! ### UI transition handlers (`CityTile`) -/

/-- `handleDiscover` (lines 436-461), the `startDiscovery` transition: if the
group is `completed` or has no `scanned` item, reset every item to `pending`
and clear results, count and error; otherwise keep all progress and only set
status `running` and clear the error. -/
def handleDiscover (c : CityData) : CityData :=
  let hasScannedPincodes := c.pincodes.any (fun p => p.status == .scanned)
  if c.status == .completed || !hasScannedPincodes then
    { c with
      status := .running
      currentPincodeIndex := 0
      centersFound := 0
      results := []
      error := none
      pincodes := c.pincodes.map (fun p => { p with status := .pending }) }
  else
    { c with status := .running, error := none }

/-- `handleManualRetry` (lines 463-472), the `retryItem` transition: set the
group `running`, the item with the given code `pending`, and clear the error. -/
def handleManualRetry (c : CityData) (code : String) : CityData :=
  { c with
    status := .running
    pincodes := c.pincodes.map (fun p => if p.code == code then { p with status := .pending } else p)
    error := none }

/-- `handleStop` (lines 474-483), the `stopDiscovery` transition: set the
group `stopped` and revert every `scanning`/`retrying` item to `pending`. -/
def handleStop (c : CityData) : CityData :=
  { c with
    status := .stopped
    pincodes := c.pincodes.map (fun p =>
      if p.status == .scanning || p.status == .retrying then { p with status := .pending } else p) }

/-! ### Collection merge (`App.tsx`, `mergeAdditionalCities`, lines 165-233) -/

/-- The `Record<string, CityData[]>` keyed by state name, as an association
list in key-insertion order (JS object keys are unique; `parseCSV` and the
merge below never create a duplicate key). -/
abbrev Grouped := List (String × List CityData)

/-- Key lookup `existingGrouped[stateName]`. -/
def findState (g : Grouped) (stateName : String) : Option (List CityData) :=
  (List.find? (fun e => e.1 == stateName) g).map (fun e => e.2)

/-- Key assignment `clonedGrouped[stateName] = cities`: replace the first
entry with that key, or append a new entry (JS object insertion order). -/
def setState : Grouped → String → List CityData → Grouped
  | [], stateName, cities => [(stateName, cities)]
  | e :: rest, stateName, cities =>
    if e.1 == stateName then (stateName, cities) :: rest
    else e :: setState rest stateName cities

/-- Lines 198-220: merge an incoming group into the existing group of the same
label and name. `existingPincodes` is the set of codes already present; every
incoming pincode whose code is absent is appended with status `pending`
(`addedNewPincode` becomes true); the update — population `Math.max`, merged
pincode list — is applied only if a new code was added or the incoming
population is larger, otherwise the existing group is left untouched. -/
def mergeCity (existing addl : CityData) : CityData :=
  let existingCodes := existing.pincodes.map (fun p => p.code)
  let newPins :=
    (addl.pincodes.filter (fun p => !existingCodes.contains p.code)).map
      (fun p => { p with status := PincodeStatus.pending })
  let addedNewPincode := !newPins.isEmpty
  if addedNewPincode || existing.population < addl.population then
    { existing with
      population := max existing.population addl.population
      pincodes := existing.pincodes ++ newPins }
  else existing

/-- Lines 191-220: `citiesInState.findIndex(city => city.name === name)`
followed by either replacing that slot with the merged group
(`updatedCities[cityIndex] = updatedCity`) or appending the incoming group
(`cityIndex === -1`), written as first-match recursion. -/
def mergeCityList : List CityData → CityData → List CityData
  | [], addl => [addl]
  | c :: rest, addl =>
    if c.name == addl.name then mergeCity c addl :: rest
    else c :: mergeCityList rest addl

/-- Lines 178-221, one iteration of `for (const additionalCity of newCities)`:
a new label inserts `[additionalCity]` under that key; an existing label
merges into its city list. (The JS deep clones are identity in a pure model.) -/
def mergeOne (g : Grouped) (addl : CityData) : Grouped :=
  match findState g addl.stateName with
  | none => setState g addl.stateName [addl]
  | some cities => setState g addl.stateName (mergeCityList cities addl)

/-- Lines 223-231: `Object.keys(clonedGrouped).sort()` then, per label,
`.slice().sort((a, b) => a.name.localeCompare(b.name))`. JS `Array.sort` is
stable; both comparators are modelled with `String`'s lexicographic order via
stable insertion sort. -/
def sortGrouped (g : Grouped) : Grouped :=
  (List.insertionSort (fun a b : String × List CityData => a.1 ≤ b.1) g).map
    (fun e => (e.1, List.insertionSort (fun a b : CityData => a.name ≤ b.name) e.2))

/-- `mergeAdditionalCities` (lines 165-233): an empty incoming list returns the
existing collection unchanged (line 166-168); otherwise every incoming group
is merged in order and the result is sorted by label and by group name. -/
def mergeAdditionalCities (existingGrouped : Grouped) (newCities : List CityData) : Grouped :=
  if newCities.isEmpty then existingGrouped
  else sortGrouped (newCities.foldl mergeOne existingGrouped)

/-! ### The group transition system (for the cross-operation invariant) -/

/-- The transitions a group undergoes: the three UI handlers plus the three
state updates `processPincode` performs (attempt marking, success, failure). -/
inductive GroupOp where
  | discover
  | stop
  | retry (code : String)
  | mark (code : String) (attempt : Nat)
  | succeed (code : String) (centers : List ScanCenter)
  | fail (code : String)

/-- Apply one transition to a group. -/
def applyOp (c : CityData) : GroupOp → CityData
  | .discover => handleDiscover c
  | .stop => handleStop c
  | .retry code => handleManualRetry c code
  | .mark code attempt => setItemStatus c code (attemptStatus attempt)
  | .succeed code centers => applySuccess c code centers
  | .fail code => applyFailure c code

/-- Apply a finite sequence of transitions. -/
def applyOps (c : CityData) (ops : List GroupOp) : CityData :=
  ops.foldl applyOp c

/-! ### Helper lemmas: the per-code map update -/

/-- An item of a code-targeted map update whose code matches got the new
status. -/
theorem status_of_mem_mapSetCode {l : List Pincode} {code : String} {s : PincodeStatus}
    {p : Pincode}
    (hp : p ∈ l.map (fun q => if q.code == code then { q with status := s } else q))
    (hc : p.code = code) : p.status = s := by
  obtain ⟨q, hq, hfq⟩ := List.mem_map.mp hp
  by_cases h : q.code = code
  · have hpq : p = { q with status := s } := by rw [← hfq]; simp [h]
    rw [hpq]
  · have hpq : p = q := by rw [← hfq]; simp [h]
    exact absurd (hpq ▸ hc) h

/-! ### Helper lemmas: the stateful dedup filter -/

/-- Unfolding: a candidate whose fingerprint is already seen is dropped. -/
theorem filterNewAux_cons_mem {seen : List String} {c : ScanCenter} {rest : List ScanCenter}
    (h : fingerprintOf c ∈ seen) :
    filterNewAux seen (c :: rest) = filterNewAux seen rest := by
  simp [filterNewAux, h]

/-- Unfolding: a candidate whose fingerprint is unseen is kept and its
fingerprint recorded. -/
theorem filterNewAux_cons_not_mem {seen : List String} {c : ScanCenter} {rest : List ScanCenter}
    (h : fingerprintOf c ∉ seen) :
    filterNewAux seen (c :: rest) = c :: filterNewAux (fingerprintOf c :: seen) rest := by
  simp [filterNewAux, h]

/-- The survivors of the stateful filter form a sublist of the candidates. -/
theorem filterNewAux_sublist (seen : List String) (cands : List ScanCenter) :
    (filterNewAux seen cands).Sublist cands := by
  induction cands generalizing seen with
  | nil => simp [filterNewAux]
  | cons c rest ih =>
    by_cases h : fingerprintOf c ∈ seen
    · rw [filterNewAux_cons_mem h]
      exact (ih seen).trans (List.sublist_cons_self c rest)
    · rw [filterNewAux_cons_not_mem h]
      exact (ih _).cons₂ c

/-- No survivor's fingerprint is in the initial seen set. -/
theorem fingerprint_not_seen_of_mem_filterNewAux (seen : List String)
    (cands : List ScanCenter) :
    ∀ c ∈ filterNewAux seen cands, fingerprintOf c ∉ seen := by
  induction cands generalizing seen with
  | nil => simp [filterNewAux]
  | cons c rest ih =>
    by_cases h : fingerprintOf c ∈ seen
    · rw [filterNewAux_cons_mem h]
      exact ih seen
    · rw [filterNewAux_cons_not_mem h]
      intro x hx
      rcases List.mem_cons.mp hx with hx | hx
      · subst hx
        exact h
      · intro hmem
        exact ih _ x hx (List.mem_cons_of_mem _ hmem)

/-- Survivors have pairwise distinct fingerprints. -/
theorem nodup_fingerprints_filterNewAux (seen : List String) (cands : List ScanCenter) :
    ((filterNewAux seen cands).map fingerprintOf).Nodup := by
  induction cands generalizing seen with
  | nil => simp [filterNewAux]
  | cons c rest ih =>
    by_cases h : fingerprintOf c ∈ seen
    · rw [filterNewAux_cons_mem h]
      exact ih seen
    · rw [filterNewAux_cons_not_mem h]
      simp only [List.map_cons, List.nodup_cons]
      refine ⟨?_, ih _⟩
      intro hmem
      obtain ⟨x, hx, hfx⟩ := List.mem_map.mp hmem
      have hnot := fingerprint_not_seen_of_mem_filterNewAux _ _ x hx
      rw [hfx] at hnot
      exact hnot (List.mem_cons_self _ _)

/-- Every candidate's fingerprint ends up in the seen set or among the
survivors: nothing eligible is dropped. -/
theorem fingerprint_covered_filterNewAux (seen : List String) (cands : List ScanCenter) :
    ∀ c ∈ cands,
      fingerprintOf c ∈ seen ∨ fingerprintOf c ∈ (filterNewAux seen cands).map fingerprintOf := by
  induction cands generalizing seen with
  | nil => simp
  | cons c rest ih =>
    intro x hx
    by_cases h : fingerprintOf c ∈ seen
    · rw [filterNewAux_cons_mem h]
      rcases List.mem_cons.mp hx with hx | hx
      · exact Or.inl (hx ▸ h)
      · exact ih seen x hx
    · rw [filterNewAux_cons_not_mem h]
      simp only [List.map_cons]
      rcases List.mem_cons.mp hx with hx | hx
      · exact Or.inr (hx ▸ List.mem_cons_self _ _)
      · rcases ih (fingerprintOf c :: seen) x hx with hmem | hmem
        · rcases List.mem_cons.mp hmem with heq | hseen
          · exact Or.inr (heq ▸ List.mem_cons_self _ _)
          · exact Or.inl hseen
        · exact Or.inr (List.mem_cons_of_mem _ hmem)

/-- If every candidate's fingerprint is already seen, nothing survives. -/
theorem filterNewAux_eq_nil (seen : List String) (cands : List ScanCenter)
    (h : ∀ c ∈ cands, fingerprintOf c ∈ seen) : filterNewAux seen cands = [] := by
  induction cands generalizing seen with
  | nil => rfl
  | cons c rest ih =>
    rw [filterNewAux_cons_mem (h c (List.mem_cons_self _ _))]
    exact ih seen (fun x hx => h x (List.mem_cons_of_mem _ hx))

/-- Sample records with distinct address fingerprints, for witnesses. -/
def recA : ScanCenter :=
  { centerName := "Alpha Imaging", address := "12, Park St.", contactDetails := "111",
    doctorDetails := [], googleMapsLink := "maps/a", reasoning := "listed CT" }

/-- A record whose address fingerprint matches `recA`'s. -/
def recA2 : ScanCenter :=
  { centerName := "Alpha Imaging Centre", address := "12 Park St", contactDetails := "222",
    doctorDetails := [], googleMapsLink := "maps/a2", reasoning := "listed CT" }

/-- A record with a fresh address fingerprint. -/
def recB : ScanCenter :=
  { centerName := "Beta Scans", address := "99 Oak Ave", contactDetails := "333",
    doctorDetails := [], googleMapsLink := "maps/b", reasoning := "listed CT" }

/-- C5: the dedup filter keeps a candidate iff its address fingerprint equals
neither an existing record's fingerprint nor an earlier kept candidate's
(first occurrence wins), survivors keep their original order, and
`filterNew (filterNew X []) X = []` for every `X`:
(1) the survivors are a sublist of the candidates (order preserved);
(2) no survivor's fingerprint occurs among the existing records;
(3) the survivors' fingerprints are pairwise distinct — a candidate equal to
an earlier kept one is dropped;
(4) every candidate's fingerprint occurs among the existing records or among
the survivors — a candidate is dropped only for one of those two reasons;
(5) re-filtering the survivors against the original batch leaves nothing. -/
theorem filterNew_spec (candidates existing X : List ScanCenter) :
    (filterNew candidates existing).Sublist candidates
    ∧ (∀ c ∈ filterNew candidates existing,
        fingerprintOf c ∉ existing.map fingerprintOf)
    ∧ ((filterNew candidates existing).map fingerprintOf).Nodup
    ∧ (∀ c ∈ candidates,
        fingerprintOf c ∈ existing.map fingerprintOf
        ∨ fingerprintOf c ∈ (filterNew candidates existing).map fingerprintOf)
    ∧ filterNew (filterNew X []) X = [] := by
  refine ⟨filterNewAux_sublist _ _, fingerprint_not_seen_of_mem_filterNewAux _ _,
    nodup_fingerprints_filterNewAux _ _, fingerprint_covered_filterNewAux _ _, ?_⟩
  apply filterNewAux_eq_nil
  intro c hc
  have hsub : (filterNew X []).Sublist X := filterNewAux_sublist _ _
  exact List.mem_map_of_mem _ (hsub.subset hc)

/-- Witness for C5 at concrete inputs: `recB` survives filtering against
`[recA]`, and the theorem then yields that its fingerprint is not among the
existing fingerprints. -/
theorem filterNew_spec_witness :
    fingerprintOf recB ∉ [recA].map fingerprintOf :=
  (filterNew_spec [recB] [recA] []).2.1 recB (by decide)

/-- C6: the fingerprint is the lowercased address with every character that is
not an ASCII (lowercase, post-lowercasing) letter or digit removed, and two
addresses are treated as duplicates by the dedup filter iff their fingerprints
are equal:
(1) every fingerprint character is an ASCII lowercase letter or an ASCII
digit;
(2) the fingerprint is computed character by character (it distributes over
concatenation — removal never looks across characters);
(3) a single candidate filtered against a single existing record is dropped
iff the two address fingerprints are equal;
(4) the spec's example: `fingerprint("123, MG Road!") = fingerprint("123 MG Road")`. -/
theorem createAddressFingerprint_spec :
    (∀ a : String, ∀ ch ∈ (createAddressFingerprint a).data,
        ('a' ≤ ch ∧ ch ≤ 'z') ∨ ('0' ≤ ch ∧ ch ≤ '9'))
    ∧ (∀ a b : String,
        createAddressFingerprint (a ++ b)
          = createAddressFingerprint a ++ createAddressFingerprint b)
    ∧ (∀ c1 c2 : ScanCenter,
        filterNew [c2] [c1] = [] ↔ fingerprintOf c2 = fingerprintOf c1)
    ∧ createAddressFingerprint "123, MG Road!" = createAddressFingerprint "123 MG Road" := by
  refine ⟨?_, ?_, ?_, by decide⟩
  · intro a ch hch
    have hpred := List.of_mem_filter hch
    rcases Bool.or_eq_true _ _ |>.mp hpred with hlow | hdig
    · left
      have := Bool.and_eq_true _ _ |>.mp hlow
      exact ⟨by simpa using of_decide_eq_true this.1, by simpa using of_decide_eq_true this.2⟩
    · right
      have := Bool.and_eq_true _ _ |>.mp hdig
      exact ⟨by simpa using of_decide_eq_true this.1, by simpa using of_decide_eq_true this.2⟩
  · intro a b
    unfold createAddressFingerprint
    rw [String.data_append, List.map_append, List.filter_append]
    rfl
  · intro c1 c2
    by_cases h : fingerprintOf c2 = fingerprintOf c1
    · constructor
      · intro _
        exact h
      · intro _
        apply filterNewAux_eq_nil
        intro c hc
        rcases List.mem_cons.mp hc with rfl | hfalse
        · simp [h]
        · simp at hfalse
    · constructor
      · intro hnil
        exfalso
        have : fingerprintOf c2 ∈ ([c1].map fingerprintOf)
            ∨ fingerprintOf c2 ∈ ((filterNew [c2] [c1]).map fingerprintOf) :=
          fingerprint_covered_filterNewAux _ _ c2 (List.mem_cons_self _ _)
        rcases this with hmem | hmem
        · simp only [List.map_cons, List.map_nil] at hmem
          exact h (by simpa using hmem)
        · rw [hnil] at hmem
          simp at hmem
      · intro heq
        exact absurd heq h

/-- Witness for C6: the character `'m'` of `fingerprint("123, MG Road!")` is in
the ASCII lowercase range, by the range conjunct of the theorem at a concrete
address and character. -/
theorem createAddressFingerprint_spec_witness :
    ('a' ≤ 'm' ∧ 'm' ≤ 'z') ∨ ('0' ≤ 'm' ∧ 'm' ≤ '9') :=
  createAddressFingerprint_spec.1 "123, MG Road!" 'm' (by decide)

/-- C10: the manual-retry transition sets the item with the given code to
`pending`, the group to `running`, and clears the group error, with no
precondition on the item's prior status — the positional characterization in
(3) applies the reset to the matching item whatever its status, including
`scanned`. -/
theorem handleManualRetry_spec (c : CityData) (code : String) :
    (handleManualRetry c code).status = .running
    ∧ (handleManualRetry c code).error = none
    ∧ ∀ i : Nat, (handleManualRetry c code).pincodes[i]? =
        (c.pincodes[i]?).map
          (fun p => if p.code = code then { p with status := PincodeStatus.pending } else p) := by
  refine ⟨rfl, rfl, ?_⟩
  intro i
  simp only [handleManualRetry, List.getElem?_map]
  cases hp : c.pincodes[i]? with
  | none => rfl
  | some p =>
    simp only [Option.map_some']
    by_cases h : p.code = code
    · simp [h]
    · simp [h]

/-- C8: `stopDiscovery` sets the status to `stopped` and reverts exactly the
`scanning`/`retrying` items to `pending` (2); it is idempotent (3); and on a
group with no in-flight-looking item it changes no item (4). -/
theorem handleStop_spec (c : CityData) :
    (handleStop c).status = .stopped
    ∧ (∀ i : Nat, (handleStop c).pincodes[i]? =
        (c.pincodes[i]?).map (fun p =>
          if p.status = .scanning ∨ p.status = .retrying
          then { p with status := PincodeStatus.pending } else p))
    ∧ handleStop (handleStop c) = handleStop c
    ∧ ((∀ p ∈ c.pincodes, p.status ≠ .scanning ∧ p.status ≠ .retrying) →
        (handleStop c).pincodes = c.pincodes) := by
  refine ⟨rfl, ?_, ?_, ?_⟩
  · intro i
    simp only [handleStop, List.getElem?_map]
    cases hp : c.pincodes[i]? with
    | none => rfl
    | some p =>
      simp only [Option.map_some']
      rcases p with ⟨pc, ps⟩
      cases ps <;> simp
  · have hfix : ∀ p : Pincode,
        (fun q : Pincode =>
          if q.status == PincodeStatus.scanning || q.status == PincodeStatus.retrying
          then { q with status := PincodeStatus.pending } else q)
          ((fun q : Pincode =>
            if q.status == PincodeStatus.scanning || q.status == PincodeStatus.retrying
            then { q with status := PincodeStatus.pending } else q) p)
          = (fun q : Pincode =>
              if q.status == PincodeStatus.scanning || q.status == PincodeStatus.retrying
              then { q with status := PincodeStatus.pending } else q) p := by
      intro p
      rcases p with ⟨pc, ps⟩
      cases ps <;> rfl
    simp only [handleStop, List.map_map]
    congr 1
    exact List.map_congr_left (fun p _ => hfix p)
  · intro h
    simp only [handleStop]
    conv_rhs => rw [← List.map_id c.pincodes]
    apply List.map_congr_left
    intro p hp
    obtain ⟨h1, h2⟩ := h p hp
    rcases p with ⟨pc, ps⟩
    cases ps <;> simp_all

/-- Witness for C8 at a concrete group: stopping a group with a `scanning` and
a `scanned` item reverts only the former; the theorem's no-op conjunct applied
to the already-stopped result yields that a second stop changes no item. -/
theorem handleStop_spec_witness :
    (handleStop (handleStop
      { name := "Pune", stateName := "MH",
        pincodes := [{ code := "411001", status := .scanning },
                     { code := "411002", status := .scanned }],
        status := .running, results := [], currentPincodeIndex := 0,
        centersFound := 0, population := 100, error := none })).pincodes
    = (handleStop
      { name := "Pune", stateName := "MH",
        pincodes := [{ code := "411001", status := .scanning },
                     { code := "411002", status := .scanned }],
        status := .running, results := [], currentPincodeIndex := 0,
        centersFound := 0, population := 100, error := none }).pincodes :=
  (handleStop_spec (handleStop
      { name := "Pune", stateName := "MH",
        pincodes := [{ code := "411001", status := .scanning },
                     { code := "411002", status := .scanned }],
        status := .running, results := [], currentPincodeIndex := 0,
        centersFound := 0, population := 100, error := none })).2.2.2 (by decide)

/-- C3: `startDiscovery` resets every item to `pending` and clears results and
the count exactly when the group is `completed` or has no `scanned` item
(first conjunct; the item codes are kept); otherwise it preserves the items
(hence every `scanned` item), the accumulated results and the count, clearing
only the error (second conjunct). Both branches set the status to `running`. -/
theorem handleDiscover_spec (c : CityData) :
    ((c.status = .completed ∨ ∀ p ∈ c.pincodes, p.status ≠ .scanned) →
      (handleDiscover c).status = .running
      ∧ (∀ p ∈ (handleDiscover c).pincodes, p.status = .pending)
      ∧ (handleDiscover c).results = []
      ∧ (handleDiscover c).centersFound = 0
      ∧ (handleDiscover c).pincodes.map (fun p => p.code) = c.pincodes.map (fun p => p.code))
    ∧ ((c.status ≠ .completed ∧ ∃ p ∈ c.pincodes, p.status = .scanned) →
      (handleDiscover c).status = .running
      ∧ (handleDiscover c).error = none
      ∧ (handleDiscover c).pincodes = c.pincodes
      ∧ (handleDiscover c).results = c.results
      ∧ (handleDiscover c).centersFound = c.centersFound) := by
  constructor
  · intro h
    have hcond : (c.status == CityDiscoveryStatus.completed
        || !(c.pincodes.any fun p => p.status == PincodeStatus.scanned)) = true := by
      rcases h with h | h
      · simp [h]
      · have : (c.pincodes.any fun p => p.status == PincodeStatus.scanned) = false := by
          simp only [List.any_eq_false]
          intro p hp
          simpa using h p hp
        simp [this]
    have heq : handleDiscover c = { c with
        status := .running, currentPincodeIndex := 0, centersFound := 0,
        results := [], error := none,
        pincodes := c.pincodes.map (fun p => { p with status := PincodeStatus.pending }) } := by
      simp [handleDiscover, hcond]
    rw [heq]
    refine ⟨rfl, ?_, rfl, rfl, ?_⟩
    · intro p hp
      obtain ⟨q, _, hfq⟩ := List.mem_map.mp hp
      rw [← hfq]
    · show (c.pincodes.map (fun p => { p with status := PincodeStatus.pending })).map
          (fun p => p.code) = c.pincodes.map (fun p => p.code)
      rw [List.map_map]
      rfl
  · intro ⟨h1, h2⟩
    have hcond : (c.status == CityDiscoveryStatus.completed
        || !(c.pincodes.any fun p => p.status == PincodeStatus.scanned)) = false := by
      obtain ⟨p, hp, hps⟩ := h2
      have hany : (c.pincodes.any fun p => p.status == PincodeStatus.scanned) = true :=
        List.any_eq_true.mpr ⟨p, hp, by simp [hps]⟩
      simp [h1, hany]
    have heq : handleDiscover c = { c with status := .running, error := none } := by
      simp [handleDiscover, hcond]
    rw [heq]
    exact ⟨rfl, rfl, rfl, rfl, rfl⟩

/-- Witness for C3 at concrete groups: a never-scanned idle group is fully
reset (results cleared), and a stopped group with a `scanned` item keeps its
items and results. -/
theorem handleDiscover_spec_witness :
    (handleDiscover
      { name := "Agra", stateName := "UP",
        pincodes := [{ code := "282001", status := .pending }],
        status := .idle, results := [], currentPincodeIndex := 0,
        centersFound := 0, population := 1, error := none }).results = []
    ∧ (handleDiscover
      { name := "Pune", stateName := "MH",
        pincodes := [{ code := "411001", status := .scanned }],
        status := .stopped, results := [recA], currentPincodeIndex := 0,
        centersFound := 1, population := 100, error := none }).results
      = [recA] :=
  ⟨((handleDiscover_spec
      { name := "Agra", stateName := "UP",
        pincodes := [{ code := "282001", status := .pending }],
        status := .idle, results := [], currentPincodeIndex := 0,
        centersFound := 0, population := 1, error := none }).1
      (Or.inr (by decide))).2.2.1,
   ((handleDiscover_spec
      { name := "Pune", stateName := "MH",
        pincodes := [{ code := "411001", status := .scanned }],
        status := .stopped, results := [recA], currentPincodeIndex := 0,
        centersFound := 1, population := 100, error := none }).2
      ⟨by decide, ⟨{ code := "411001", status := .scanned }, by decide, rfl⟩⟩).2.2.2.1⟩

/-- One transition preserves the count invariant `centersFound = |results|`. -/
theorem applyOp_preserves_count (c : CityData) (op : GroupOp)
    (h : c.centersFound = c.results.length) :
    (applyOp c op).centersFound = (applyOp c op).results.length := by
  cases op with
  | discover =>
    simp only [applyOp, handleDiscover]
    by_cases hcond : (c.status == CityDiscoveryStatus.completed
        || !(c.pincodes.any fun p => p.status == PincodeStatus.scanned)) = true
    · simp [hcond]
    · simp only [Bool.not_eq_true] at hcond
      simp [hcond, h]
  | stop => exact h
  | retry code => exact h
  | mark code attempt => exact h
  | succeed code centers =>
    simp only [applyOp, applySuccess, List.length_append]
    omega
  | fail code => exact h

/-- C7: after any finite sequence of the group transitions (`startDiscovery`,
`stopDiscovery`, `retryItem`, and the attempt/success/failure updates of item
processing), a group that satisfies the data-model count invariant
`resultCount = length(results)` still satisfies it, and every item's status is
one of the five declared states. -/
theorem applyOps_invariant (c : CityData) (ops : List GroupOp)
    (h : c.centersFound = c.results.length) :
    (applyOps c ops).centersFound = (applyOps c ops).results.length
    ∧ ∀ p ∈ (applyOps c ops).pincodes,
        p.status = .pending ∨ p.status = .scanning ∨ p.status = .scanned
        ∨ p.status = .error ∨ p.status = .retrying := by
  constructor
  · induction ops generalizing c with
    | nil => exact h
    | cons op rest ih =>
      simp only [applyOps, List.foldl_cons]
      exact ih (applyOp c op) (applyOp_preserves_count c op h)
  · intro p _
    cases hs : p.status
    · exact Or.inl rfl
    · exact Or.inr (Or.inl rfl)
    · exact Or.inr (Or.inr (Or.inl rfl))
    · exact Or.inr (Or.inr (Or.inr (Or.inl rfl)))
    · exact Or.inr (Or.inr (Or.inr (Or.inr rfl)))

/-- Witness for C7: a concrete group satisfying the count invariant still
satisfies it after discover, a success update, a failure update, and stop. -/
theorem applyOps_invariant_witness :
    (applyOps
      { name := "Pune", stateName := "MH",
        pincodes := [{ code := "411001", status := .pending },
                     { code := "411002", status := .pending }],
        status := .idle, results := [], currentPincodeIndex := 0,
        centersFound := 0, population := 100, error := none }
      [.discover, .mark "411001" 1, .succeed "411001" [recA],
       .mark "411002" 1, .fail "411002", .stop]).centersFound
    = (applyOps
      { name := "Pune", stateName := "MH",
        pincodes := [{ code := "411001", status := .pending },
                     { code := "411002", status := .pending }],
        status := .idle, results := [], currentPincodeIndex := 0,
        centersFound := 0, population := 100, error := none }
      [.discover, .mark "411001" 1, .succeed "411001" [recA],
       .mark "411002" 1, .fail "411002", .stop]).results.length :=
  (applyOps_invariant
    { name := "Pune", stateName := "MH",
      pincodes := [{ code := "411001", status := .pending },
                   { code := "411002", status := .pending }],
      status := .idle, results := [], currentPincodeIndex := 0,
      centersFound := 0, population := 100, error := none }
    [.discover, .mark "411001" 1, .succeed "411001" [recA],
     .mark "411002" 1, .fail "411002", .stop] rfl).1

/-! ### Helper lemmas: the retry loop -/

/-- Attempt 1 writes `scanning`. -/
theorem attemptStatus_one : attemptStatus 1 = .scanning := rfl

/-- Attempt 2 writes `retrying`. -/
theorem attemptStatus_two : attemptStatus 2 = .retrying := rfl

/-- Attempt 3 writes `retrying`. -/
theorem attemptStatus_three : attemptStatus 3 = .retrying := rfl

/-- Computation: the whole run when the first attempt succeeds. -/
theorem processPincode_firstSuccess (c : CityData) (code : String)
    (oracle : Nat → AttemptResult) (centers : List ScanCenter)
    (h1 : oracle 1 = .success centers) :
    processPincode c code oracle
      = (applySuccess (setItemStatus c code .scanning) code centers,
         [Ev.attempt 1 .scanning]) := by
  simp [processPincode, processAttempts, attemptSchedule, h1, attemptStatus_one]

/-- Computation: the whole run when attempt 1 fails and attempt 2 succeeds. -/
theorem processPincode_secondSuccess (c : CityData) (code : String)
    (oracle : Nat → AttemptResult) (centers : List ScanCenter)
    (h1 : oracle 1 = .failure) (h2 : oracle 2 = .success centers) :
    processPincode c code oracle
      = (applySuccess (setItemStatus (setItemStatus c code .scanning) code .retrying)
           code centers,
         [Ev.attempt 1 .scanning, Ev.delay RETRY_DELAY_MS, Ev.attempt 2 .retrying]) := by
  simp [processPincode, processAttempts, attemptSchedule, h1, h2, attemptStatus_one,
    attemptStatus_two]

/-- Computation: the whole run when attempts 1-2 fail and attempt 3 succeeds. -/
theorem processPincode_thirdSuccess (c : CityData) (code : String)
    (oracle : Nat → AttemptResult) (centers : List ScanCenter)
    (h1 : oracle 1 = .failure) (h2 : oracle 2 = .failure) (h3 : oracle 3 = .success centers) :
    processPincode c code oracle
      = (applySuccess
           (setItemStatus (setItemStatus (setItemStatus c code .scanning) code .retrying)
             code .retrying) code centers,
         [Ev.attempt 1 .scanning, Ev.delay RETRY_DELAY_MS, Ev.attempt 2 .retrying,
          Ev.delay RETRY_DELAY_MS, Ev.attempt 3 .retrying]) := by
  simp [processPincode, processAttempts, attemptSchedule, h1, h2, h3, attemptStatus_one,
    attemptStatus_two, attemptStatus_three]

/-- Computation: the whole run when all three attempts fail. -/
theorem processPincode_allFail (c : CityData) (code : String)
    (oracle : Nat → AttemptResult)
    (h1 : oracle 1 = .failure) (h2 : oracle 2 = .failure) (h3 : oracle 3 = .failure) :
    processPincode c code oracle
      = (applyFailure
           (setItemStatus (setItemStatus (setItemStatus c code .scanning) code .retrying)
             code .retrying) code,
         [Ev.attempt 1 .scanning, Ev.delay RETRY_DELAY_MS, Ev.attempt 2 .retrying,
          Ev.delay RETRY_DELAY_MS, Ev.attempt 3 .retrying]) := by
  simp [processPincode, processAttempts, attemptSchedule, h1, h2, h3, attemptStatus_one,
    attemptStatus_two, attemptStatus_three]

/-- C2: one `processPincode` run, for any per-attempt outcomes:
(1) the event trace is one of three shapes — attempt 1 writes `scanning`,
attempts 2-3 write `retrying`, a 5000 ms delay precedes each retry, and at
most 3 attempts happen;
(2) the group status field is never touched by this path (it stays whatever it
was, becoming neither `completed` nor `error`);
(3) if all three attempts fail, the item ends `error`, the group error message
is exactly `Failed on pincode <code>.` — which mentions the code — and all
three attempts (with both delays) were made. -/
theorem processPincode_spec (c : CityData) (code : String) (oracle : Nat → AttemptResult) :
    ((processPincode c code oracle).2 = [Ev.attempt 1 .scanning]
      ∨ (processPincode c code oracle).2
          = [Ev.attempt 1 .scanning, Ev.delay 5000, Ev.attempt 2 .retrying]
      ∨ (processPincode c code oracle).2
          = [Ev.attempt 1 .scanning, Ev.delay 5000, Ev.attempt 2 .retrying,
             Ev.delay 5000, Ev.attempt 3 .retrying])
    ∧ (processPincode c code oracle).1.status = c.status
    ∧ ((oracle 1 = .failure ∧ oracle 2 = .failure ∧ oracle 3 = .failure) →
        (∀ p ∈ (processPincode c code oracle).1.pincodes, p.code = code → p.status = .error)
        ∧ (processPincode c code oracle).1.error
            = some ("Failed on pincode " ++ code ++ ".")
        ∧ (∃ pre post : String, "Failed on pincode " ++ code ++ "." = pre ++ code ++ post)
        ∧ (processPincode c code oracle).2
            = [Ev.attempt 1 .scanning, Ev.delay 5000, Ev.attempt 2 .retrying,
               Ev.delay 5000, Ev.attempt 3 .retrying]) := by
  cases h1 : oracle 1 with
  | success centers1 =>
    rw [processPincode_firstSuccess c code oracle centers1 h1]
    refine ⟨Or.inl rfl, rfl, ?_⟩
    intro ⟨hf1, _, _⟩
    exact absurd hf1 (by simp)
  | failure =>
    cases h2 : oracle 2 with
    | success centers2 =>
      rw [processPincode_secondSuccess c code oracle centers2 h1 h2]
      refine ⟨Or.inr (Or.inl rfl), rfl, ?_⟩
      intro ⟨_, hf2, _⟩
      exact absurd hf2 (by simp)
    | failure =>
      cases h3 : oracle 3 with
      | success centers3 =>
        rw [processPincode_thirdSuccess c code oracle centers3 h1 h2 h3]
        refine ⟨Or.inr (Or.inr rfl), rfl, ?_⟩
        intro ⟨_, _, hf3⟩
        exact absurd hf3 (by simp)
      | failure =>
        rw [processPincode_allFail c code oracle h1 h2 h3]
        refine ⟨Or.inr (Or.inr rfl), rfl, ?_⟩
        intro _
        refine ⟨?_, rfl, ⟨"Failed on pincode ", ".", rfl⟩, rfl⟩
        intro p hp hcode
        exact status_of_mem_mapSetCode hp hcode

/-- Witness for C2: with every attempt failing on item `600001`, the final
item status is `error` and the group error message mentions `600001`. -/
theorem processPincode_spec_witness :
    (processPincode
      { name := "Chennai", stateName := "TN",
        pincodes := [{ code := "600001", status := .pending }],
        status := .running, results := [], currentPincodeIndex := 0,
        centersFound := 0, population := 0, error := none }
      "600001" (fun _ => .failure)).1.error
    = some ("Failed on pincode " ++ "600001" ++ ".") :=
  ((processPincode_spec
      { name := "Chennai", stateName := "TN",
        pincodes := [{ code := "600001", status := .pending }],
        status := .running, results := [], currentPincodeIndex := 0,
        centersFound := 0, population := 0, error := none }
      "600001" (fun _ => .failure)).2.2 ⟨rfl, rfl, rfl⟩).2.1

/-- C9 is false on the code: a resolved-but-malformed extraction payload is
*not* treated as a failed attempt. `findAndAnalyzeCTScans` catches the
`JSON.parse` error and resolves with `[]` (lines 229-232), so `processPincode`
takes its success branch: at this concrete input the call with a malformed
payload resolves with `ok []`, and the item is marked `scanned` after a single
attempt with no retry and no error — the claim said it would count against the
retry budget and not mark the item `Scanned`. -/
theorem malformed_response_counterexample :
    extractionResultOf "not json" none [] = Except.ok []
    ∧ (processPincode
        { name := "Chennai", stateName := "TN",
          pincodes := [{ code := "600001", status := .pending }],
          status := .running, results := [], currentPincodeIndex := 0,
          centersFound := 0, population := 0, error := none }
        "600001" (fun _ => .success [])).1.pincodes
      = [{ code := "600001", status := .scanned }]
    ∧ (processPincode
        { name := "Chennai", stateName := "TN",
          pincodes := [{ code := "600001", status := .pending }],
          status := .running, results := [], currentPincodeIndex := 0,
          centersFound := 0, population := 0, error := none }
        "600001" (fun _ => .success [])).2
      = [Ev.attempt 1 .scanning]
    ∧ (processPincode
        { name := "Chennai", stateName := "TN",
          pincodes := [{ code := "600001", status := .pending }],
          status := .running, results := [], currentPincodeIndex := 0,
          centersFound := 0, population := 0, error := none }
        "600001" (fun _ => .success [])).1.error = none :=
  ⟨rfl, by decide, by decide, by decide⟩

/-- C9 (amended): an attempt whose extraction call resolves but whose payload
cannot be parsed is treated as a *successful* attempt with zero records: the
call resolves with `ok []` (never an error), and the processing loop then
marks the item `scanned` on that very attempt — one attempt, no retry, results
unchanged, group error cleared. -/
theorem malformed_response_amended (raw : String) (existing : List ScanCenter)
    (c : CityData) (code : String) (oracle : Nat → AttemptResult)
    (hraw : strTrim raw ≠ "") (h1 : oracle 1 = .success []) :
    extractionResultOf raw none existing = .ok []
    ∧ (∀ p ∈ (processPincode c code oracle).1.pincodes,
        p.code = code → p.status = .scanned)
    ∧ (processPincode c code oracle).1.results = c.results
    ∧ (processPincode c code oracle).1.error = none
    ∧ (processPincode c code oracle).2 = [Ev.attempt 1 .scanning] := by
  refine ⟨?_, ?_, ?_, ?_, ?_⟩
  · simp [extractionResultOf, hraw]
  · rw [processPincode_firstSuccess c code oracle [] h1]
    intro p hp hcode
    exact status_of_mem_mapSetCode hp hcode
  · rw [processPincode_firstSuccess c code oracle [] h1]
    simp [applySuccess, setItemStatus]
  · rw [processPincode_firstSuccess c code oracle [] h1]
    rfl
  · rw [processPincode_firstSuccess c code oracle [] h1]

/-- Witness for the amended C9 at concrete inputs: a malformed payload for a
nonempty raw text resolves with `ok []`, and the processed item's results are
unchanged. -/
theorem malformed_response_amended_witness :
    extractionResultOf "not json" none [recA] = .ok []
    ∧ (processPincode
        { name := "Chennai", stateName := "TN",
          pincodes := [{ code := "600001", status := .pending }],
          status := .running, results := [recA], currentPincodeIndex := 0,
          centersFound := 1, population := 0, error := none }
        "600001" (fun _ => .success [])).1.results = [recA] :=
  ⟨(malformed_response_amended "not json" [recA]
      { name := "Chennai", stateName := "TN",
        pincodes := [{ code := "600001", status := .pending }],
        status := .running, results := [recA], currentPincodeIndex := 0,
        centersFound := 1, population := 0, error := none }
      "600001" (fun _ => .success []) (by decide) rfl).1,
   (malformed_response_amended "not json" [recA]
      { name := "Chennai", stateName := "TN",
        pincodes := [{ code := "600001", status := .pending }],
        status := .running, results := [recA], currentPincodeIndex := 0,
        centersFound := 1, population := 0, error := none }
      "600001" (fun _ => .success []) (by decide) rfl).2.2.1⟩

/-! ### Helper lemmas: the scheduler -/

/-- Marking one code (unique in the list) changes the number of
`scanning`/`retrying` items by at most one. -/
theorem length_filter_mapSetCode_le (code : String) (s : PincodeStatus) :
    ∀ l : List Pincode, (l.map (fun p => p.code)).Nodup →
      ((l.map (fun q => if q.code == code then { q with status := s } else q)).filter
        (fun p => p.status == PincodeStatus.scanning
          || p.status == PincodeStatus.retrying)).length
      ≤ (l.filter (fun p => p.status == PincodeStatus.scanning
          || p.status == PincodeStatus.retrying)).length + 1 := by
  intro l
  induction l with
  | nil => intro _; simp
  | cons q rest ih =>
    intro hnd
    rw [List.map_cons, List.nodup_cons] at hnd
    obtain ⟨hq_not, hnd_rest⟩ := hnd
    by_cases hq : q.code = code
    · have hrest_id : rest.map (fun r => if r.code == code then { r with status := s } else r)
          = rest := by
        have : ∀ r ∈ rest, (if r.code == code then { r with status := s } else r) = r := by
          intro r hr
          have : r.code ≠ code := by
            intro hrc
            exact hq_not (List.mem_map.mpr ⟨r, hr, hrc.trans hq.symm⟩)
          simp [this]
        rw [List.map_congr_left this]
        simp
      simp only [List.map_cons, hrest_id, List.filter_cons]
      by_cases ha : ((if q.code == code then { q with status := s } else q).status
          == PincodeStatus.scanning
          || (if q.code == code then { q with status := s } else q).status
          == PincodeStatus.retrying) = true
      · simp only [ha, if_true]
        by_cases hb : (q.status == PincodeStatus.scanning
            || q.status == PincodeStatus.retrying) = true
        · simp [hb]
        · simp only [Bool.not_eq_true] at hb
          simp [hb]
      · simp only [Bool.not_eq_true] at ha
        simp only [ha, Bool.false_eq_true, if_false]
        by_cases hb : (q.status == PincodeStatus.scanning
            || q.status == PincodeStatus.retrying) = true
        · simp [hb]
          omega
        · simp only [Bool.not_eq_true] at hb
          simp [hb]
    · have hfq : (if q.code == code then { q with status := s } else q) = q := by
        simp [hq]
      simp only [List.map_cons, hfq, List.filter_cons]
      by_cases hb : (q.status == PincodeStatus.scanning
          || q.status == PincodeStatus.retrying) = true
      · simp only [hb, if_true, List.length_cons]
        have := ih hnd_rest
        omega
      · simp only [Bool.not_eq_true] at hb
        simp only [hb, Bool.false_eq_true, if_false]
        exact ih hnd_rest

/-- `setItemStatus` on a group with unique codes adds at most one active
item. -/
theorem activeScans_setItemStatus_le (c : CityData) (code : String) (s : PincodeStatus)
    (hnd : (c.pincodes.map (fun p => p.code)).Nodup) :
    activeScans (setItemStatus c code s) ≤ activeScans c + 1 :=
  length_filter_mapSetCode_le code s c.pincodes hnd

/-- Reduction of the scheduler decision for a running, uncancelled group with
no eligible item. -/
theorem schedulerStep_running_none (c : CityData) (hrun : c.status = .running)
    (hnp : nextPincode c = none) :
    schedulerStep false c
      = if activeScans c == 0 && c.pincodes.all (fun p => p.status == PincodeStatus.scanned)
        then .complete else .wait := by
  simp [schedulerStep, hrun, hnp]

/-- Reduction of the scheduler decision for a running, uncancelled group with
a first eligible item. -/
theorem schedulerStep_running_some (c : CityData) (next : Pincode)
    (hrun : c.status = .running) (hnp : nextPincode c = some next) :
    schedulerStep false c
      = if MAX_CONCURRENT_PINCODES ≤ activeScans c then .wait
        else .start next.code := by
  simp [schedulerStep, hrun, hnp]

/-- C1: for a running, uncancelled group, one scheduler invocation
(1) starts an item only when fewer than 2 items are `scanning`/`retrying`, and
the started item is the first in list order with status `pending` or `error`
(everything before it is neither);
(2) transitions the group to `completed` exactly when no `pending`/`error`
item exists, the active count is 0, and every item is `scanned`;
(3) consequently (for the data model's unique item codes) it keeps the number
of `scanning`/`retrying` items at most 2. -/
theorem scheduler_spec (cancelled : Bool) (c : CityData)
    (hrun : c.status = .running) (hcan : cancelled = false) :
    (∀ code, schedulerStep cancelled c = .start code →
      activeScans c < MAX_CONCURRENT_PINCODES
      ∧ ∃ next pre post, code = next.code
          ∧ c.pincodes = pre ++ next :: post
          ∧ (next.status = .pending ∨ next.status = .error)
          ∧ ∀ q ∈ pre, ¬(q.status = .pending ∨ q.status = .error))
    ∧ ((schedStep cancelled c).status = .completed ↔
        ((∀ p ∈ c.pincodes, ¬(p.status = .pending ∨ p.status = .error))
          ∧ activeScans c = 0
          ∧ ∀ p ∈ c.pincodes, p.status = .scanned))
    ∧ ((c.pincodes.map (fun p => p.code)).Nodup →
        activeScans c ≤ MAX_CONCURRENT_PINCODES →
        activeScans (schedStep cancelled c) ≤ MAX_CONCURRENT_PINCODES) := by
  subst hcan
  refine ⟨?_, ?_, ?_⟩
  · -- (1) start only under the cap, and only the first eligible item
    intro code hstart
    cases hnp : nextPincode c with
    | none =>
      rw [schedulerStep_running_none c hrun hnp] at hstart
      by_cases hcond : (activeScans c == 0
          && c.pincodes.all (fun p => p.status == PincodeStatus.scanned)) = true
      · rw [if_pos hcond] at hstart
        exact SchedAction.noConfusion hstart
      · rw [if_neg hcond] at hstart
        exact SchedAction.noConfusion hstart
    | some next =>
      rw [schedulerStep_running_some c next hrun hnp] at hstart
      by_cases hle : MAX_CONCURRENT_PINCODES ≤ activeScans c
      · rw [if_pos hle] at hstart
        exact SchedAction.noConfusion hstart
      · rw [if_neg hle] at hstart
        have hcode : code = next.code := by
          cases hstart
          rfl
        refine ⟨Nat.lt_of_not_le hle, next, ?_⟩
        simp only [nextPincode] at hnp
        obtain ⟨hpred, pre, post, hsplit, hprev⟩ := List.find?_eq_some.mp hnp
        refine ⟨pre, post, hcode, hsplit, ?_, ?_⟩
        · simpa using hpred
        · intro q hq
          have := hprev q hq
          simpa using this
  · -- (2) the completion transition happens exactly under the stated conditions
    cases hnp : nextPincode c with
    | none =>
      have hnone := hnp
      simp only [nextPincode] at hnone
      have hnp_prop : ∀ p ∈ c.pincodes, ¬(p.status = .pending ∨ p.status = .error) := by
        intro p hp
        have := List.find?_eq_none.mp hnone p hp
        simpa using this
      by_cases hcond : (activeScans c == 0
          && c.pincodes.all (fun p => p.status == PincodeStatus.scanned)) = true
      · have hsched : schedulerStep false c = .complete := by
          rw [schedulerStep_running_none c hrun hnp, if_pos hcond]
        apply iff_of_true
        · show (applySched c (schedulerStep false c)).status = _
          rw [hsched]
          rfl
        · rw [Bool.and_eq_true] at hcond
          refine ⟨hnp_prop, by simpa using hcond.1, ?_⟩
          intro p hp
          have := List.all_eq_true.mp hcond.2 p hp
          simpa using this
      · have hsched : schedulerStep false c = .wait := by
          rw [schedulerStep_running_none c hrun hnp, if_neg hcond]
        apply iff_of_false
        · show ¬(applySched c (schedulerStep false c)).status = _
          rw [hsched]
          show ¬c.status = _
          rw [hrun]
          intro h
          exact CityDiscoveryStatus.noConfusion h
        · rintro ⟨_, h0, hall⟩
          apply hcond
          rw [Bool.and_eq_true]
          constructor
          · simpa using h0
          · rw [List.all_eq_true]
            intro p hp
            simpa using hall p hp
    | some next =>
      have hsome := hnp
      simp only [nextPincode] at hsome
      have hmem : next ∈ c.pincodes := List.mem_of_find?_eq_some hsome
      have hpred : next.status = .pending ∨ next.status = .error := by
        have := List.find?_some hsome
        simpa using this
      have hstat : (schedStep false c).status = c.status := by
        show (applySched c (schedulerStep false c)).status = _
        rw [schedulerStep_running_some c next hrun hnp]
        by_cases hle : MAX_CONCURRENT_PINCODES ≤ activeScans c
        · rw [if_pos hle]
          rfl
        · rw [if_neg hle]
          rfl
      apply iff_of_false
      · rw [hstat, hrun]
        intro h
        exact CityDiscoveryStatus.noConfusion h
      · rintro ⟨hne, _, _⟩
        exact hne next hmem hpred
  · -- (3) the active count stays at most 2
    intro hnd hle2
    show activeScans (applySched c (schedulerStep false c)) ≤ _
    cases hnp : nextPincode c with
    | none =>
      rw [schedulerStep_running_none c hrun hnp]
      by_cases hcond : (activeScans c == 0
          && c.pincodes.all (fun p => p.status == PincodeStatus.scanned)) = true
      · rw [if_pos hcond]
        exact hle2
      · rw [if_neg hcond]
        exact hle2
    | some next =>
      rw [schedulerStep_running_some c next hrun hnp]
      by_cases hle : MAX_CONCURRENT_PINCODES ≤ activeScans c
      · rw [if_pos hle]
        exact hle2
      · rw [if_neg hle]
        have hbound := activeScans_setItemStatus_le c next.code (attemptStatus 1) hnd
        have hlt : activeScans c < MAX_CONCURRENT_PINCODES := Nat.lt_of_not_le hle
        show activeScans (setItemStatus c next.code (attemptStatus 1)) ≤ _
        omega

/-- Witness for C1 at a concrete running group with one active and one pending
item: after the scheduler step the active count is still at most 2. -/
theorem scheduler_spec_witness :
    activeScans (schedStep false
      { name := "Pune", stateName := "MH",
        pincodes := [{ code := "411001", status := .scanning },
                     { code := "411002", status := .pending }],
        status := .running, results := [], currentPincodeIndex := 0,
        centersFound := 0, population := 100, error := none })
    ≤ MAX_CONCURRENT_PINCODES :=
  (scheduler_spec false
    { name := "Pune", stateName := "MH",
      pincodes := [{ code := "411001", status := .scanning },
                   { code := "411002", status := .pending }],
      status := .running, results := [], currentPincodeIndex := 0,
      centersFound := 0, population := 100, error := none }
    rfl rfl).2.2 (by decide) (by decide)

/-! ### Helper lemmas: the collection merge -/

instance : IsTotal (String × List CityData) (fun a b => a.1 ≤ b.1) :=
  ⟨fun a b => le_total a.1 b.1⟩

instance : IsTrans (String × List CityData) (fun a b => a.1 ≤ b.1) :=
  ⟨fun _ _ _ hab hbc => le_trans hab hbc⟩

instance : IsTotal CityData (fun a b => a.name ≤ b.name) :=
  ⟨fun a b => le_total a.name b.name⟩

instance : IsTrans CityData (fun a b => a.name ≤ b.name) :=
  ⟨fun _ _ _ hab hbc => le_trans hab hbc⟩

/-- Assigning an absent key appends the new entry. -/
theorem setState_of_absent (g : Grouped) (s : String) (v : List CityData)
    (h : List.find? (fun e => e.1 == s) g = none) : setState g s v = g ++ [(s, v)] := by
  induction g with
  | nil => rfl
  | cons e rest ih =>
    by_cases he : (e.1 == s) = true
    · rw [List.find?_cons_of_pos rest he] at h
      exact Option.noConfusion h
    · rw [List.find?_cons_of_neg rest he] at h
      show (if e.1 == s then _ else e :: setState rest s v) = _
      rw [if_neg he, ih h]
      rfl

/-- Merging a group whose name does not occur appends it. -/
theorem mergeCityList_append (cities : List CityData) (addl : CityData)
    (h : ∀ cOld ∈ cities, cOld.name ≠ addl.name) :
    mergeCityList cities addl = cities ++ [addl] := by
  induction cities with
  | nil => rfl
  | cons c rest ih =>
    have hc : (c.name == addl.name) = false := by
      simpa using h c (List.mem_cons_self _ _)
    show (if c.name == addl.name then _ else c :: mergeCityList rest addl) = _
    rw [hc]
    simp only [Bool.false_eq_true, if_false, List.cons_append, List.cons.injEq, true_and]
    exact ih (fun x hx => h x (List.mem_cons_of_mem _ hx))

/-- Either nothing changed (no new code, no larger weight) or the merged group
is the existing one with the weight maximum and the fresh codes appended as
`pending`. -/
theorem mergeCity_eq (existing addl : CityData) :
    (mergeCity existing addl = existing
      ∧ (addl.pincodes.filter
          (fun p => !((existing.pincodes.map (fun p => p.code)).contains p.code))) = []
      ∧ addl.population ≤ existing.population)
    ∨ mergeCity existing addl = { existing with
        population := max existing.population addl.population
        pincodes := existing.pincodes ++ ((addl.pincodes.filter
          (fun p => !((existing.pincodes.map (fun p => p.code)).contains p.code))).map
          (fun p => { p with status := PincodeStatus.pending })) } := by
  by_cases hcond : (!((addl.pincodes.filter
      (fun p => !((existing.pincodes.map (fun p => p.code)).contains p.code))).map
      (fun p => { p with status := PincodeStatus.pending })).isEmpty
      || decide (existing.population < addl.population)) = true
  · right
    simp only [mergeCity]
    rw [if_pos hcond]
  · left
    rw [Bool.not_eq_true] at hcond
    rw [Bool.or_eq_false_iff] at hcond
    obtain ⟨hempty, hpop⟩ := hcond
    rw [Bool.not_eq_false', List.isEmpty_iff, List.map_eq_nil_iff] at hempty
    refine ⟨?_, hempty, ?_⟩
    · simp only [mergeCity]
      rw [if_neg]
      rw [Bool.not_eq_true, Bool.or_eq_false_iff]
      refine ⟨?_, hpop⟩
      rw [Bool.not_eq_false', List.isEmpty_iff, List.map_eq_nil_iff]
      exact hempty
    · have := of_decide_eq_false hpop
      omega

/-- The merged collection is sorted by label, and each label's groups by
name. -/
theorem sortGrouped_sorted (h : Grouped) :
    List.Pairwise (fun a b : String × List CityData => a.1 ≤ b.1) (sortGrouped h)
    ∧ ∀ e ∈ sortGrouped h, List.Pairwise (fun a b : CityData => a.name ≤ b.name) e.2 := by
  constructor
  · have hs := List.sorted_insertionSort (fun a b : String × List CityData => a.1 ≤ b.1) h
    unfold sortGrouped
    rw [List.pairwise_map]
    exact hs
  · intro e he
    unfold sortGrouped at he
    obtain ⟨e', _, rfl⟩ := List.mem_map.mp he
    exact List.sorted_insertionSort (fun a b : CityData => a.name ≤ b.name) e'.2

/-- Merging changes nothing when every incoming code is already present and
the incoming weight is not larger. -/
theorem mergeCity_noop (existing addl : CityData)
    (hall : ∀ p ∈ addl.pincodes, p.code ∈ existing.pincodes.map (fun p => p.code))
    (hpople : addl.population ≤ existing.population) :
    mergeCity existing addl = existing := by
  have hfilter : addl.pincodes.filter
      (fun p => !((existing.pincodes.map (fun p => p.code)).contains p.code)) = [] := by
    rw [List.filter_eq_nil_iff]
    intro p hp
    simp [hall p hp]
  rcases mergeCity_eq existing addl with ⟨heq, _, _⟩ | heq
  · exact heq
  · rw [heq, hfilter]
    simp [max_eq_left hpople]

/-- C4 (amended): the merge inserts a group under a new label as-is (first
conjunct), appends a group with a known label but new name (second conjunct);
for a group under an existing label and name (third conjunct) it keeps name,
label, status, results and count, takes the weight maximum, keeps the existing
items as an untouched prefix, appends exactly the incoming codes not already
present — each with status `pending` — and changes nothing at all when no new
code exists and the weight did not grow; and, *when the incoming list is
nonempty*, the result is sorted by label and each label's groups by name
(fourth conjunct). In particular merging never resets or loses existing
discovery progress. -/
theorem mergeAdditionalCities_spec (g : Grouped) (addl existing : CityData)
    (newCities : List CityData) :
    (findState g addl.stateName = none →
      mergeOne g addl = g ++ [(addl.stateName, [addl])])
    ∧ (∀ cities, findState g addl.stateName = some cities →
        (∀ cOld ∈ cities, cOld.name ≠ addl.name) →
        mergeOne g addl = setState g addl.stateName (cities ++ [addl]))
    ∧ ((mergeCity existing addl).name = existing.name
      ∧ (mergeCity existing addl).stateName = existing.stateName
      ∧ (mergeCity existing addl).status = existing.status
      ∧ (mergeCity existing addl).results = existing.results
      ∧ (mergeCity existing addl).centersFound = existing.centersFound
      ∧ (mergeCity existing addl).population = max existing.population addl.population
      ∧ (mergeCity existing addl).pincodes.take existing.pincodes.length
          = existing.pincodes
      ∧ (∀ q ∈ (mergeCity existing addl).pincodes.drop existing.pincodes.length,
          q.status = .pending
          ∧ q.code ∉ existing.pincodes.map (fun p => p.code)
          ∧ q.code ∈ addl.pincodes.map (fun p => p.code))
      ∧ (∀ p ∈ addl.pincodes, p.code ∉ existing.pincodes.map (fun p => p.code) →
          p.code ∈ (mergeCity existing addl).pincodes.map (fun p => p.code))
      ∧ ((∀ p ∈ addl.pincodes, p.code ∈ existing.pincodes.map (fun p => p.code)) →
          addl.population ≤ existing.population →
          mergeCity existing addl = existing))
    ∧ (newCities ≠ [] →
        List.Pairwise (fun a b : String × List CityData => a.1 ≤ b.1)
          (mergeAdditionalCities g newCities)
        ∧ ∀ e ∈ mergeAdditionalCities g newCities,
            List.Pairwise (fun a b : CityData => a.name ≤ b.name) e.2) := by
  refine ⟨?_, ?_, ?_, ?_⟩
  · intro hnone
    unfold mergeOne
    rw [hnone]
    apply setState_of_absent
    unfold findState at hnone
    exact Option.map_eq_none'.mp hnone
  · intro cities hfind hnames
    unfold mergeOne
    rw [hfind]
    show setState g addl.stateName (mergeCityList cities addl) = _
    rw [mergeCityList_append cities addl hnames]
  · have hcontains : ∀ p : Pincode,
        (!((existing.pincodes.map (fun p => p.code)).contains p.code)) = true
        ↔ p.code ∉ existing.pincodes.map (fun p => p.code) := by
      intro p
      simp
    rcases mergeCity_eq existing addl with ⟨heq, hnil, hpop⟩ | heq
    · rw [heq]
      refine ⟨rfl, rfl, rfl, rfl, rfl, (max_eq_left hpop).symm,
        List.take_length existing.pincodes, ?_, ?_, fun _ _ => rfl⟩
      · intro q hq
        rw [List.drop_length] at hq
        exact absurd hq (List.not_mem_nil q)
      · intro p hp hnotin
        exfalso
        have hmem : p ∈ addl.pincodes.filter
            (fun p => !((existing.pincodes.map (fun p => p.code)).contains p.code)) :=
          List.mem_filter.mpr ⟨hp, (hcontains p).mpr hnotin⟩
        rw [hnil] at hmem
        exact List.not_mem_nil p hmem
    · have hpin : (mergeCity existing addl).pincodes
          = existing.pincodes ++ ((addl.pincodes.filter
            (fun p => !((existing.pincodes.map (fun p => p.code)).contains p.code))).map
            (fun p => { p with status := PincodeStatus.pending })) := by
        rw [heq]
      have hname : (mergeCity existing addl).name = existing.name := by rw [heq]
      have hstate : (mergeCity existing addl).stateName = existing.stateName := by rw [heq]
      have hstatus : (mergeCity existing addl).status = existing.status := by rw [heq]
      have hres : (mergeCity existing addl).results = existing.results := by rw [heq]
      have hcnt : (mergeCity existing addl).centersFound = existing.centersFound := by
        rw [heq]
      have hpop2 : (mergeCity existing addl).population
          = max existing.population addl.population := by
        rw [heq]
      refine ⟨hname, hstate, hstatus, hres, hcnt, hpop2, ?_, ?_, ?_,
        fun hall hpople => mergeCity_noop existing addl hall hpople⟩
      · rw [hpin]
        exact List.take_left _ _
      · rw [hpin]
        intro q hq
        rw [List.drop_left] at hq
        obtain ⟨p, hpf, rfl⟩ := List.mem_map.mp hq
        obtain ⟨hpmem, hpred⟩ := List.mem_filter.mp hpf
        refine ⟨rfl, (hcontains p).mp hpred, ?_⟩
        show p.code ∈ addl.pincodes.map (fun p => p.code)
        exact List.mem_map_of_mem _ hpmem
      · rw [hpin]
        intro p hp hnotin
        have hpf : p ∈ addl.pincodes.filter
            (fun p => !((existing.pincodes.map (fun p => p.code)).contains p.code)) :=
          List.mem_filter.mpr ⟨hp, (hcontains p).mpr hnotin⟩
        have hin : p.code ∈ ((addl.pincodes.filter
            (fun p => !((existing.pincodes.map (fun p => p.code)).contains p.code))).map
            (fun p => { p with status := PincodeStatus.pending })).map (fun p => p.code) :=
          List.mem_map.mpr ⟨{ p with status := PincodeStatus.pending },
            List.mem_map_of_mem _ hpf, rfl⟩
        rw [List.map_append]
        exact List.mem_append_right _ hin
  · intro hne
    rcases newCities with _ | ⟨x, xs⟩
    · exact absurd rfl hne
    · have hred : mergeAdditionalCities g (x :: xs)
          = sortGrouped ((x :: xs).foldl mergeOne g) := rfl
      rw [hred]
      exact sortGrouped_sorted _

/-- The spec's existing `Pune` group: `411001` scanned, `411002` pending,
weight 100, one accumulated result. -/
def puneOld : CityData :=
  { name := "Pune", stateName := "MH",
    pincodes := [{ code := "411001", status := .scanned },
                 { code := "411002", status := .pending }],
    status := .stopped, results := [recA], currentPincodeIndex := 0,
    centersFound := 1, population := 100, error := none }

/-- The spec's incoming `Pune` group: codes `411001` and `411003`, weight
150. -/
def puneNew : CityData :=
  { name := "Pune", stateName := "MH",
    pincodes := [{ code := "411001", status := .pending },
                 { code := "411003", status := .pending }],
    status := .idle, results := [], currentPincodeIndex := 0,
    centersFound := 0, population := 150, error := none }

/-- C4 as frozen is false at one input: with an *empty* incoming list the
merge returns the existing collection unchanged (line 166-168 of `App.tsx`),
so a collection whose labels are out of order stays unsorted — the claimed
"finally sorts labels" does not happen for every list of incoming groups. -/
theorem mergeAdditionalCities_empty_counterexample :
    mergeAdditionalCities [("B", []), ("A", [])] [] = [("B", []), ("A", [])]
    ∧ ¬ List.Pairwise (fun a b : String × List CityData => a.1 ≤ b.1)
        (mergeAdditionalCities [("B", []), ("A", [])] []) := by
  refine ⟨rfl, ?_⟩
  intro h
  rw [show mergeAdditionalCities [("B", []), ("A", [])] [] = [("B", []), ("A", [])]
    from rfl] at h
  have hBA : (("B", ([] : List CityData)).1 ≤ (("A", ([] : List CityData))).1) :=
    (List.pairwise_cons.mp h).1 ("A", []) (List.mem_cons_self _ _)
  have : ¬(("B" : String) ≤ "A") := by
    simp only [String.le_iff_toList_le]
    decide
  exact this hBA

/-- Witness for the amended C4: merging the spec's Pune scenario (a nonempty
incoming list) yields a collection sorted by label. -/
theorem mergeAdditionalCities_spec_witness :
    List.Pairwise (fun a b : String × List CityData => a.1 ≤ b.1)
      (mergeAdditionalCities [("MH", [puneOld])] [puneNew]) :=
  ((mergeAdditionalCities_spec [("MH", [puneOld])] puneNew puneOld [puneNew]).2.2.2
    (by simp)).1
